import Mathlib

/-
Shallow embedding of the Smart Indexer Pro core (queue store, analysis and
submission orchestrators, selection manager, URL extractor) from the
TypeScript sources, together with theorems settling the frozen claims.
React state updates (`setItems(prev => ...)`) are modelled as pure
functions on the item list; the nondeterministic external calls
(Gemini analysis, Math.random) are modelled as explicit oracle arguments.
-/

namespace SmartIndexer

/-- Enumeration IndexingStatus from types.ts. -/
inductive IndexingStatus
  | PENDING
  | ANALYZING
  | READY
  | SUBMITTING
  | SUCCESS
  | FAILED
  deriving DecidableEq, Repr

/-- Enumeration UrlQuality from types.ts. -/
inductive UrlQuality
  | HIGH
  | MEDIUM
  | LOW
  deriving DecidableEq, Repr

/-- Request kind literal type from types.ts. -/
inductive RequestType
  | URL_UPDATED
  | URL_DELETED
  deriving DecidableEq, Repr

/-- Interface UrlItem from types.ts.  qualityScore is a JS number holding an
integral 0-100 score; it is embedded as Int. -/
structure UrlItem where
  id : String
  url : String
  status : IndexingStatus
  qualityScore : Option Int := none
  qualityLabel : Option UrlQuality := none
  analysis : Option String := none
  requestType : RequestType := RequestType.URL_UPDATED
  deriving DecidableEq, Repr

/-- Interface ServiceAccountKey from types.ts. -/
structure ServiceAccountKey where
  type : String
  project_id : String
  private_key_id : String
  private_key : String
  client_email : String
  client_id : String
  auth_uri : String
  token_uri : String
  auth_provider_x509_cert_url : String
  client_x509_cert_url : String
  deriving DecidableEq, Repr

/-- One entry of AnalysisResponse.items from types.ts. -/
structure AnalysisEntry where
  url : String
  qualityLabel : UrlQuality
  qualityScore : Int
  reasoning : String
  deriving DecidableEq, Repr

/-! ## Queue store (App.tsx: addUrls, deleteUrl, deleteBatch, clearFailedUrls) -/

/-- App.tsx addUrls.  The source computes each id as
Math.random().toString(36).substring(7); the float draw is embedded as the
oracle gen applied at successive call indices n, n+1, ... (no uniqueness
check is performed by the source). -/
def addUrls (gen : Nat → String) (n : Nat) (items : List UrlItem) (urls : List String) :
    List UrlItem :=
  items ++ urls.mapIdx (fun k u =>
    { id := gen (n + k), url := u, status := IndexingStatus.PENDING,
      requestType := RequestType.URL_UPDATED })

/-- App.tsx deleteUrl: items.filter(i => i.id !== id). -/
def deleteUrl (items : List UrlItem) (i : String) : List UrlItem :=
  items.filter (fun x => x.id ≠ i)

/-- App.tsx deleteBatch: items.filter(i => !ids.includes(i.id)). -/
def deleteBatch (items : List UrlItem) (ids : List String) : List UrlItem :=
  items.filter (fun x => ¬ ids.contains x.id)

/-- App.tsx clearFailedUrls: items.filter(i => i.status !== FAILED). -/
def clearFailedUrls (items : List UrlItem) : List UrlItem :=
  items.filter (fun x => x.status ≠ IndexingStatus.FAILED)

/-! ## Analysis orchestrator (App.tsx: runGeminiAnalysis) -/

/-- Target resolution of runGeminiAnalysis: with targetIds, the items whose
id is listed; otherwise all PENDING items. -/
def analyzeTargets (items : List UrlItem) (targetIds : Option (List String)) :
    List UrlItem :=
  match targetIds with
  | some ids => items.filter (fun i => ids.contains i.id)
  | none => items.filter (fun i => i.status = IndexingStatus.PENDING)

/-- The first setItems of runGeminiAnalysis: every targeted item is moved to
ANALYZING. -/
def markAnalyzing (items : List UrlItem) (pids : List String) : List UrlItem :=
  items.map (fun i =>
    if pids.contains i.id then { i with status := IndexingStatus.ANALYZING } else i)

/-- The success-path setItems of runGeminiAnalysis: targeted items are looked
up in the response by exact url equality; a hit moves the item to READY and
copies score, label and reasoning, a miss leaves the item as is. -/
def applyAnalysisResults (items : List UrlItem) (pids : List String)
    (entries : List AnalysisEntry) : List UrlItem :=
  items.map (fun i =>
    if pids.contains i.id then
      match entries.find? (fun r => r.url = i.url) with
      | some r =>
          { i with status := IndexingStatus.READY,
                   qualityLabel := some r.qualityLabel,
                   qualityScore := some r.qualityScore,
                   analysis := some r.reasoning }
      | none => i
    else i)

/-- The catch-path setItems of runGeminiAnalysis: targeted items still in
ANALYZING revert to PENDING. -/
def revertAnalyzing (items : List UrlItem) (pids : List String) : List UrlItem :=
  items.map (fun i =>
    if pids.contains i.id then
      (if i.status = IndexingStatus.ANALYZING
       then { i with status := IndexingStatus.PENDING } else i)
    else i)

/-- App.tsx runGeminiAnalysis.  The awaited analyzeUrls call is embedded as
the oracle outcome: ok with the response entries, or error when the call
threw (a malformed response makes JSON parsing throw and lands in the same
catch). -/
def runGeminiAnalysis (items : List UrlItem) (targetIds : Option (List String))
    (outcome : Except Unit (List AnalysisEntry)) : List UrlItem :=
  let itemsToProcess := analyzeTargets items targetIds
  if itemsToProcess.isEmpty then items
  else
    let processingIds := itemsToProcess.map (fun i => i.id)
    let s1 := markAnalyzing items processingIds
    match outcome with
    | Except.ok entries => applyAnalysisResults s1 processingIds entries
    | Except.error _ => revertAnalyzing s1 processingIds

/-! ## Submission orchestrator (App.tsx: submitToGoogle) -/

/-- Error kind raised by submitToGoogle when no service account is loaded. -/
inductive SubmitError
  | CONFIG_MISSING
  deriving DecidableEq, Repr

/-- Target resolution of submitToGoogle: with targetIds, the items whose id
is listed (any status); otherwise all READY items. -/
def submitTargets (items : List UrlItem) (targetIds : Option (List String)) :
    List UrlItem :=
  match targetIds with
  | some ids => items.filter (fun i => ids.contains i.id)
  | none => items.filter (fun i => i.status = IndexingStatus.READY)

/-- The first setItems of submitToGoogle: every targeted item is moved to
SUBMITTING before the sequential loop starts. -/
def markSubmitting (items : List UrlItem) (pids : List String) : List UrlItem :=
  items.map (fun i =>
    if pids.contains i.id then { i with status := IndexingStatus.SUBMITTING } else i)

/-- Error note written by submitToGoogle on a failed submission. -/
def submitErrorNote : String :=
  "API Error: Failed to connect to indexing.googleapis.com (Simulated)"

/-- The per-iteration setItems of the submitToGoogle loop: the single item
with the given id gets SUCCESS, or FAILED plus the error note. -/
def commitSubmission (items : List UrlItem) (itemId : String) (ok : Bool) :
    List UrlItem :=
  items.map (fun i =>
    if i.id = itemId then
      { i with status := if ok then IndexingStatus.SUCCESS else IndexingStatus.FAILED,
               analysis := if ok then i.analysis else some submitErrorNote }
    else i)

/-- States committed by the sequential for-loop of submitToGoogle, one per
processed item, in target order.  The oracle oks models the per-item
Math.random() > 0.1 draw, indexed by loop position. -/
def submitStatesLoop (s : List UrlItem) (toProcess : List UrlItem)
    (oks : Nat → Bool) (k : Nat) : List (List UrlItem) :=
  match toProcess with
  | [] => []
  | item :: rest =>
    let sNext := commitSubmission s item.id (oks k)
    sNext :: submitStatesLoop sNext rest oks (k + 1)

/-- Observable outcome of one submitToGoogle invocation: the raised error if
any, the successive item-list snapshots (first the SUBMITTING snapshot, then
one per committed item), the external submission calls made (urls in call
order), and the final item list. -/
structure SubmitResult where
  error : Option SubmitError
  states : List (List UrlItem)
  calls : List String
  final : List UrlItem
  deriving Repr

/-- App.tsx submitToGoogle.  Missing credential returns CONFIG_MISSING with
no state change and no calls; an empty target set is a no-op; otherwise all
targets are marked SUBMITTING and then committed one at a time. -/
def submitToGoogle (items : List UrlItem) (serviceAccount : Option ServiceAccountKey)
    (targetIds : Option (List String)) (oks : Nat → Bool) : SubmitResult :=
  match serviceAccount with
  | none => ⟨some SubmitError.CONFIG_MISSING, [], [], items⟩
  | some _ =>
    let itemsToProcess := submitTargets items targetIds
    if itemsToProcess.isEmpty then ⟨none, [], [], items⟩
    else
      let processingIds := itemsToProcess.map (fun i => i.id)
      let s0 := markSubmitting items processingIds
      let states := submitStatesLoop s0 itemsToProcess oks 0
      ⟨none, s0 :: states, itemsToProcess.map (fun i => i.url),
       (s0 :: states).getLast (List.cons_ne_nil _ _)⟩

/-- Status of the item with the given id, looked up the way the source does
(first match on id). -/
def statusOf (items : List UrlItem) (i : String) : Option IndexingStatus :=
  (items.find? (fun x => x.id = i)).map (fun x => x.status)

/-! ## Selection manager (UrlList.tsx: selectedIds state) -/

/-- Combined UrlList/App state relevant to the selection claims: the queue
store plus the selection set (insertion-ordered, as a JS Set of ids). -/
structure UiState where
  items : List UrlItem
  selectedIds : List String
  deriving Repr

/-- Per-row delete button of UrlList (onClick calls only onDelete(item.id);
selectedIds is not touched). -/
def rowDeleteUi (s : UiState) (i : String) : UiState :=
  ⟨deleteUrl s.items i, s.selectedIds⟩

/-- UrlList executeBatchAction applied to onDeleteBatch: deletes the selected
ids from the store and then clears the whole selection. -/
def batchDeleteUi (s : UiState) : UiState :=
  ⟨deleteBatch s.items s.selectedIds, []⟩

/-- Clear-failed button of UrlList (onClearFailed; selectedIds not touched). -/
def clearFailedUi (s : UiState) : UiState :=
  ⟨clearFailedUrls s.items, s.selectedIds⟩

/-! ## Processing-flag gates (App.tsx action bar, UrlList.tsx batch buttons) -/

/-- Disabled condition of the global AI-Analyze button in App.tsx. -/
def globalAnalyzeDisabled (isProcessing : Bool) (items : List UrlItem) : Bool :=
  isProcessing ||
    (items.filter (fun i => i.status = IndexingStatus.PENDING)).length = 0

/-- Disabled condition of the global Submit-Ready button in App.tsx. -/
def globalSubmitDisabled (isProcessing : Bool)
    (serviceAccount : Option ServiceAccountKey) (items : List UrlItem) : Bool :=
  isProcessing || !serviceAccount.isSome ||
    (items.filter (fun i => i.status = IndexingStatus.READY)).length = 0

/-- Disabled condition of the batch Analyze/Submit/Delete buttons in
UrlList.tsx: these buttons set no disabled attribute at all, so the
condition is constantly false whatever the processing flag is. -/
def batchActionDisabled (isProcessing : Bool) : Bool :=
  false

/-! ## URL extractor (UrlList.tsx: handleScanExtract)

The three regex tiers of handleScanExtract are embedded as character-list
scanners with the exact JavaScript matchAll/match semantics: search the
leftmost position where the pattern matches, emit the match, continue after
it; on failure at a position advance one character.  The scanners recurse on
a fuel argument initialised to the input length; every successful match
consumes at least one character and every failure consumes exactly one, so
that fuel can never run out. -/

/-- Apostrophe character (written by code point to keep the source plain). -/
def squote : Char := Char.ofNat 39

/-- Content scan for the lazy group of /<loc>(.*?)<\/loc>/: the shortest
character run up to the first "</loc>", failing on a line terminator (the
dot of a JS regex matches neither \n nor \r) or end of input.  Returns the
content and the input remaining after the closing tag. -/
def locContent : List Char → Option (List Char × List Char)
  | [] => none
  | c :: cs =>
    if List.isPrefixOf ("</loc>".toList) (c :: cs) then
      some ([], (c :: cs).drop 6)
    else if c = '\n' ∨ c = '\r' then none
    else
      match locContent cs with
      | some (content, rest) => some (c :: content, rest)
      | none => none

/-- Fuelled scanner for scanContent.matchAll(/<loc>(.*?)<\/loc>/g), emitting
the captured groups in match order. -/
def locMatchesF : Nat → List Char → List String
  | 0, _ => []
  | _ + 1, [] => []
  | fuel + 1, c :: cs =>
    if List.isPrefixOf ("<loc>".toList) (c :: cs) then
      match locContent ((c :: cs).drop 5) with
      | some (content, rest) => String.mk content :: locMatchesF fuel rest
      | none => locMatchesF fuel cs
    else locMatchesF fuel cs

/-- All captures of /<loc>(.*?)<\/loc>/g over the input. -/
def locMatches (l : List Char) : List String := locMatchesF l.length l

/-- Quote test for the character classes ["'] and [^"'] of the href regex. -/
def isQuote (c : Char) : Bool := c = '"' ∨ c = squote

/-- Scheme matcher for https?:\/\/ with the greedy optional s. -/
def schemeSplit (l : List Char) : Option (List Char × List Char) :=
  if List.isPrefixOf ("https://".toList) l then some ("https://".toList, l.drop 8)
  else if List.isPrefixOf ("http://".toList) l then some ("http://".toList, l.drop 7)
  else none

/-- Single-position matcher for /href=["'](https?:\/\/[^"']+)["']/: literal
href=, an opening quote, the scheme, a nonempty greedy run of non-quote
characters, and a closing quote (either kind).  Returns the captured group
(scheme plus run) and the input remaining after the closing quote. -/
def hrefAt (l : List Char) : Option (List Char × List Char) :=
  if List.isPrefixOf ("href=".toList) l then
    match l.drop 5 with
    | [] => none
    | q :: after =>
      if isQuote q then
        match schemeSplit after with
        | some (scheme, rest1) =>
          let body := rest1.takeWhile (fun c => ¬ isQuote c)
          let rest2 := rest1.dropWhile (fun c => ¬ isQuote c)
          if body.isEmpty then none
          else
            match rest2 with
            | [] => none
            | _ :: rest3 => some (scheme ++ body, rest3)
        | none => none
      else none
  else none

/-- Fuelled scanner for scanContent.matchAll(/href=["'](https?:\/\/[^"']+)["']/g),
emitting the captured groups in match order. -/
def hrefMatchesF : Nat → List Char → List String
  | 0, _ => []
  | _ + 1, [] => []
  | fuel + 1, c :: cs =>
    match hrefAt (c :: cs) with
    | some (cap, rest) => String.mk cap :: hrefMatchesF fuel rest
    | none => hrefMatchesF fuel cs

/-- All captures of /href=["'](https?:\/\/[^"']+)["']/g over the input. -/
def hrefMatches (l : List Char) : List String := hrefMatchesF l.length l

/-- ASCII part of the JS \s class (the source only ever meets ASCII input). -/
def isJsSpace (c : Char) : Bool :=
  c = ' ' ∨ c = '\t' ∨ c = '\n' ∨ c = '\r' ∨ c = Char.ofNat 11 ∨ c = Char.ofNat 12

/-- Stop class [\s<>"'] of the loose URL regex. -/
def looseStop (c : Char) : Bool :=
  isJsSpace c ∨ c = '<' ∨ c = '>' ∨ c = '"' ∨ c = squote

/-- Single-position matcher for /https?:\/\/[^\s<>"']+/: the scheme followed
by a nonempty greedy run of non-stop characters. -/
def looseAt (l : List Char) : Option (List Char × List Char) :=
  match schemeSplit l with
  | some (scheme, rest1) =>
    let body := rest1.takeWhile (fun c => ¬ looseStop c)
    if body.isEmpty then none
    else some (scheme ++ body, rest1.dropWhile (fun c => ¬ looseStop c))
  | none => none

/-- Fuelled scanner for scanContent.match(/https?:\/\/[^\s<>"']+/g), emitting
the full matches in order (an empty result list embeds the null return). -/
def looseMatchesF : Nat → List Char → List String
  | 0, _ => []
  | _ + 1, [] => []
  | fuel + 1, c :: cs =>
    match looseAt (c :: cs) with
    | some (cap, rest) => String.mk cap :: looseMatchesF fuel rest
    | none => looseMatchesF fuel cs

/-- All matches of /https?:\/\/[^\s<>"']+/g over the input. -/
def looseMatches (l : List Char) : List String := looseMatchesF l.length l

/-- Tier selection of handleScanExtract: loc captures if any, else href
captures, and the loose matches when the first two strategies produced
nothing. -/
def tierExtract (content : List Char) : List String :=
  let locs := locMatches content
  let extracted := if locs.length > 0 then locs else hrefMatches content
  if extracted.length = 0 then looseMatches content else extracted

/-- JS String.prototype.trim restricted to the ASCII \s class: drop leading
then trailing space characters. -/
def trimL (l : List Char) : List Char := l.dropWhile isJsSpace

/-- Trailing-space removal half of trim. -/
def trimR (l : List Char) : List Char := (l.reverse.dropWhile isJsSpace).reverse

/-- JS String.prototype.trim. -/
def jsTrim (s : String) : String := String.mk (trimR (trimL s.toList))

/-- JS String.prototype.toLowerCase (ASCII range). -/
def toLowerStr (s : String) : String := String.mk (s.toList.map Char.toLower)

/-- JS String.prototype.includes: some suffix of s starts with sub. -/
def strIncludes (s sub : String) : Bool :=
  (s.toList.tails).any (fun t => List.isPrefixOf sub.toList t)

/-- Keyword list of handleScanExtract: scanFilter.split(",") with each piece
trimmed and lowercased. -/
def splitKeywords (scanFilter : String) : List String :=
  (scanFilter.splitOn ",").map (fun k => toLowerStr (jsTrim k))

/-- Keyword filter of handleScanExtract: applied only when the trimmed
filter string is nonempty (JS truthiness); keeps urls whose lowercased form
contains some keyword. -/
def keywordFilter (scanFilter : String) (urls : List String) : List String :=
  if jsTrim scanFilter ≠ "" then
    let keywords := splitKeywords scanFilter
    urls.filter (fun url => keywords.any (fun k => strIncludes (toLowerStr url) k))
  else urls

/-- Insertion-ordered deduplication of [...new Set(extracted)]: a JS Set
keeps the first occurrence of each element. -/
def dedupAux (seen : List String) : List String → List String
  | [] => []
  | x :: xs => if seen.contains x then dedupAux seen xs else x :: dedupAux (x :: seen) xs

/-- Spread of a JS Set built from the list. -/
def jsSetDedup (l : List String) : List String := dedupAux [] l

/-- UrlList.tsx handleScanExtract, as the function from the scanner textarea
content and the filter field to the url list handed to onAdd: tiered
extraction, keyword filter, Set dedup, then trim and drop empties. -/
def handleScanExtract (scanContent : String) (scanFilter : String) : List String :=
  ((jsSetDedup (keywordFilter scanFilter (tierExtract scanContent.toList))).map
    jsTrim).filter (fun u => 0 < u.length)

/-! ## Theorems about the analysis orchestrator -/

/-- Failure path of runGeminiAnalysis as one map over the item list: every
targeted item ends PENDING with all other fields untouched, every other item
is untouched. -/
lemma runGeminiAnalysis_error_eq (items : List UrlItem)
    (targetIds : Option (List String)) :
    runGeminiAnalysis items targetIds (Except.error ()) =
      items.map (fun i =>
        if ((analyzeTargets items targetIds).map (fun a => a.id)).contains i.id
        then { i with status := IndexingStatus.PENDING } else i) := by
  unfold runGeminiAnalysis
  by_cases h : (analyzeTargets items targetIds).isEmpty
  · rw [if_pos h, List.isEmpty_iff.mp h]
    simp
  · rw [if_neg h]
    simp only [revertAnalyzing, markAnalyzing, List.map_map]
    apply List.map_congr_left
    intro a _
    dsimp only [Function.comp]
    split_ifs <;> first | rfl | simp_all

/-- Success path of runGeminiAnalysis as one map over the item list: a
targeted item with a response entry of exactly equal url becomes READY with
the entry fields, a targeted item without one ends ANALYZING with all other
fields untouched, every other item is untouched. -/
lemma runGeminiAnalysis_ok_eq (items : List UrlItem)
    (targetIds : Option (List String)) (entries : List AnalysisEntry) :
    runGeminiAnalysis items targetIds (Except.ok entries) =
      items.map (fun i =>
        if ((analyzeTargets items targetIds).map (fun a => a.id)).contains i.id then
          match entries.find? (fun r => r.url = i.url) with
          | some r =>
              { i with status := IndexingStatus.READY,
                       qualityLabel := some r.qualityLabel,
                       qualityScore := some r.qualityScore,
                       analysis := some r.reasoning }
          | none => { i with status := IndexingStatus.ANALYZING }
        else i) := by
  unfold runGeminiAnalysis
  by_cases h : (analyzeTargets items targetIds).isEmpty
  · rw [if_pos h, List.isEmpty_iff.mp h]
    simp
  · rw [if_neg h]
    simp only [applyAnalysisResults, markAnalyzing, List.map_map]
    apply List.map_congr_left
    intro a _
    dsimp only [Function.comp]
    cases hf : entries.find? (fun r => r.url = a.url) <;>
      split_ifs <;> simp only [hf]

/-- C2: when the external analysis call fails, every targeted item (all of
which are still ANALYZING at that point, there being no other writer) is
reverted to PENDING with no quality score, label or note written, and
non-targeted items are not altered. -/
theorem analysis_failure_reverts (items : List UrlItem)
    (targetIds : Option (List String)) :
    runGeminiAnalysis items targetIds (Except.error ()) =
      items.map (fun i =>
        if ((analyzeTargets items targetIds).map (fun a => a.id)).contains i.id
        then { i with status := IndexingStatus.PENDING } else i) :=
  runGeminiAnalysis_error_eq items targetIds

/-- C4: when the external analysis call succeeds, a targeted item whose url
has an exactly-matching response entry transitions to READY with score,
label and note from that entry, and a targeted item without a matching entry
keeps status ANALYZING with all other fields unchanged. -/
theorem analysis_success_updates (items : List UrlItem)
    (targetIds : Option (List String)) (entries : List AnalysisEntry) :
    runGeminiAnalysis items targetIds (Except.ok entries) =
      items.map (fun i =>
        if ((analyzeTargets items targetIds).map (fun a => a.id)).contains i.id then
          match entries.find? (fun r => r.url = i.url) with
          | some r =>
              { i with status := IndexingStatus.READY,
                       qualityLabel := some r.qualityLabel,
                       qualityScore := some r.qualityScore,
                       analysis := some r.reasoning }
          | none => { i with status := IndexingStatus.ANALYZING }
        else i) :=
  runGeminiAnalysis_ok_eq items targetIds entries

/-- C3: a submit invocation without a configured credential fails with
CONFIG_MISSING, leaves every item exactly as it was, issues no external
submission call and commits no intermediate state. -/
theorem submit_config_missing_noop (items : List UrlItem)
    (targetIds : Option (List String)) (oks : Nat → Bool) :
    (submitToGoogle items none targetIds oks).error = some SubmitError.CONFIG_MISSING ∧
    (submitToGoogle items none targetIds oks).final = items ∧
    (submitToGoogle items none targetIds oks).calls = [] ∧
    (submitToGoogle items none targetIds oks).states = [] :=
  ⟨rfl, rfl, rfl, rfl⟩

/-! ## Theorems about the extractor -/

lemma dropWhile_dropWhile (p : Char → Bool) (l : List Char) :
    (l.dropWhile p).dropWhile p = l.dropWhile p := by
  induction l with
  | nil => rfl
  | cons a t ih =>
    cases hp : p a with
    | true => simp [List.dropWhile_cons, hp, ih]
    | false => simp [List.dropWhile_cons, hp]

lemma trimR_idem (l : List Char) : trimR (trimR l) = trimR l := by
  unfold trimR
  rw [List.reverse_reverse, dropWhile_dropWhile]

lemma trimL_idem (l : List Char) : trimL (trimL l) = trimL l :=
  dropWhile_dropWhile isJsSpace l

lemma trimR_prefix (l : List Char) : trimR l <+: l := by
  have h := List.dropWhile_suffix (l := l.reverse) isJsSpace
  have h2 : (l.reverse.dropWhile isJsSpace).reverse <+: l.reverse.reverse :=
    List.reverse_prefix.mpr h
  simpa [trimR] using h2

lemma trimL_trimR_of_fix (l : List Char) (h : trimL l = l) :
    trimL (trimR l) = trimR l := by
  cases htr : trimR l with
  | nil => rfl
  | cons c t =>
    obtain ⟨s, hs⟩ := htr ▸ trimR_prefix l
    have hc : isJsSpace c = false := by
      cases hc : isJsSpace c with
      | false => rfl
      | true =>
        exfalso
        have hl : l = c :: (t ++ s) := by simpa using hs.symm
        have h3 := h
        rw [hl] at h3
        have h2 : List.dropWhile isJsSpace (t ++ s) = c :: (t ++ s) := by
          simpa [trimL, List.dropWhile_cons, hc] using h3
        have hlen := congrArg List.length h2
        rw [List.length_cons] at hlen
        have hle : ((t ++ s).dropWhile isJsSpace).length ≤ (t ++ s).length :=
          (List.dropWhile_suffix isJsSpace).sublist.length_le
        omega
    simp [trimL, List.dropWhile_cons, hc]

lemma jsTrim_idem (s : String) : jsTrim (jsTrim s) = jsTrim s := by
  show String.mk (trimR (trimL (trimR (trimL s.toList))))
      = String.mk (trimR (trimL s.toList))
  rw [trimL_trimR_of_fix _ (trimL_idem s.toList), trimR_idem]

lemma dedupAux_sublist (l seen : List String) : (dedupAux seen l).Sublist l := by
  induction l generalizing seen with
  | nil => exact List.Sublist.refl _
  | cons x xs ih =>
    cases hx : seen.contains x with
    | true =>
      simp only [dedupAux, hx, if_true]
      exact (ih seen).trans (List.sublist_cons_self x xs)
    | false =>
      simp only [dedupAux, hx, Bool.false_eq_true, if_false]
      exact (ih (x :: seen)).cons₂ x

lemma not_mem_seen_of_mem_dedupAux (l : List String) :
    ∀ seen x, x ∈ dedupAux seen l → ¬ x ∈ seen := by
  induction l with
  | nil => intro seen x hx; simp [dedupAux] at hx
  | cons y ys ih =>
    intro seen x hx
    cases hy : seen.contains y with
    | true =>
      simp only [dedupAux, hy, if_true] at hx
      exact ih seen x hx
    | false =>
      simp only [dedupAux, hy, Bool.false_eq_true, if_false, List.mem_cons] at hx
      rcases hx with rfl | hx
      · intro hmem
        have : seen.contains x = true := List.elem_iff.mpr hmem
        rw [this] at hy
        cases hy
      · intro hmem
        exact ih (y :: seen) x hx (List.mem_cons_of_mem y hmem)

lemma dedupAux_nodup (l seen : List String) : (dedupAux seen l).Nodup := by
  induction l generalizing seen with
  | nil => simp [dedupAux]
  | cons y ys ih =>
    cases hy : seen.contains y with
    | true =>
      simp only [dedupAux, hy, if_true]
      exact ih seen
    | false =>
      simp only [dedupAux, hy, Bool.false_eq_true, if_false]
      refine List.nodup_cons.mpr ⟨fun hmem => ?_, ih (y :: seen)⟩
      exact not_mem_seen_of_mem_dedupAux ys (y :: seen) y hmem (List.mem_cons_self y seen)

/-- Tier selection of handleScanExtract written as nested conditionals on
whether the earlier tiers matched. -/
lemma tierExtract_eq_cases (content : List Char) :
    tierExtract content =
      (if locMatches content = [] then
        (if hrefMatches content = [] then looseMatches content
         else hrefMatches content)
       else locMatches content) := by
  by_cases h1 : locMatches content = []
  · by_cases h2 : hrefMatches content = []
    · simp [tierExtract, h1, h2]
    · simp [tierExtract, h1, h2, List.length_eq_zero]
  · have hp : 0 < (locMatches content).length := List.length_pos.mpr h1
    simp [tierExtract, h1, hp, Nat.pos_iff_ne_zero.mp hp]

/-- C7: the extractor tiers are mutually exclusive in strict priority order:
whenever at least one loc tag matched, the output is computed from the loc
captures only; href captures are used only when no loc matched, and the
loose tier only when neither earlier tier matched.  The concrete conjunct is
the spec example: loc contents win and the href is ignored. -/
theorem extractor_tier_priority :
    (∀ content filterStr : String,
      handleScanExtract content filterStr =
        ((jsSetDedup (keywordFilter filterStr
            (if locMatches content.toList = [] then
               (if hrefMatches content.toList = [] then looseMatches content.toList
                else hrefMatches content.toList)
             else locMatches content.toList))).map jsTrim).filter
          (fun u => 0 < u.length)) ∧
    handleScanExtract "<loc>A</loc><loc>B</loc><a href=\"http://c.com\">x</a>" ""
      = ["A", "B"] := by
  constructor
  · intro content filterStr
    unfold handleScanExtract
    rw [tierExtract_eq_cases]
  · rfl

/-- C8 counterexample: two loc contents that differ only by trailing
whitespace survive the Set dedup (which runs before trimming) and so the
output contains the same string twice. -/
theorem extract_dedup_precedes_trim :
    handleScanExtract "<loc>a</loc><loc>a </loc>" "" = ["a", "a"] ∧
    ¬ (handleScanExtract "<loc>a</loc><loc>a </loc>" "").Nodup := by
  exact ⟨rfl, by decide⟩

/-- C8 amended: every output string is nonempty and trimmed, and the output
is the trim of an order-preserving duplicate-free selection of the raw
(keyword-filtered) matches; deduplication happens on the raw strings before
trimming, so equal-after-trim duplicates can remain. -/
theorem extract_output_clean_amended (content filterStr : String) :
    ((handleScanExtract content filterStr).all
      (fun u => decide (0 < u.length) && decide (jsTrim u = u))) = true ∧
    ∃ sub : List String,
      sub.Sublist (keywordFilter filterStr (tierExtract content.toList)) ∧
      sub.Nodup ∧
      handleScanExtract content filterStr =
        (sub.map jsTrim).filter (fun u => 0 < u.length) := by
  refine ⟨?_, jsSetDedup (keywordFilter filterStr (tierExtract content.toList)),
          dedupAux_sublist _ _, dedupAux_nodup _ _, rfl⟩
  rw [List.all_eq_true]
  intro u hu
  unfold handleScanExtract at hu
  rw [List.mem_filter] at hu
  obtain ⟨hmem, hlen⟩ := hu
  rw [List.mem_map] at hmem
  obtain ⟨v, _, rfl⟩ := hmem
  simp only [Bool.and_eq_true, decide_eq_true_eq]
  exact ⟨by simpa using hlen, jsTrim_idem v⟩

/-! ## Theorems about selection consistency, id freshness and the gate -/

/-- Concrete queue item for the selection counterexample. -/
def cexItem : UrlItem :=
  { id := "a", url := "http://x", status := IndexingStatus.PENDING }

/-- C5 counterexample: with one item selected, the per-row delete removes
the item from the store but leaves its id in the selection set, so a
dangling selected id remains after the operation completes. -/
theorem row_delete_leaves_dangling_selection :
    "a" ∈ (rowDeleteUi ⟨[cexItem], ["a"]⟩ "a").selectedIds ∧
    ¬ "a" ∈ ((rowDeleteUi ⟨[cexItem], ["a"]⟩ "a").items.map (fun i => i.id)) := by
  decide

/-- C5 amended: a batch delete clears the selection set entirely (hence no
dangling id can survive it), while the per-row delete and the clear-failed
operation leave the selection set unchanged, so ids removed by them may
remain selected. -/
theorem selection_consistency_amended (s : UiState) :
    (batchDeleteUi s).selectedIds = [] ∧
    ((batchDeleteUi s).selectedIds.all
      (fun x => ((batchDeleteUi s).items.map (fun i => i.id)).contains x)) = true ∧
    (∀ i : String, (rowDeleteUi s i).selectedIds = s.selectedIds) ∧
    (clearFailedUi s).selectedIds = s.selectedIds :=
  ⟨rfl, rfl, fun _ => rfl, rfl⟩

/-- C6: the source draws each id as Math.random().toString(36).substring(7)
with no uniqueness check.  Math.random may return the same float twice; with
0.5 on both draws, (0.5).toString(36) is "0.i" whose substring(7) is the
empty string, so both created items get the identical id "" and the store
invariant of pairwise-distinct ids is violated. -/
theorem addUrls_random_id_collision :
    ((addUrls (fun _ => "") 0 [] ["u1", "u2"]).map (fun i => i.id) = ["", ""]) ∧
    ¬ ((addUrls (fun _ => "") 0 [] ["u1", "u2"]).map (fun i => i.id)).Nodup := by
  exact ⟨by decide, by decide⟩

/-- Concrete item and response entry for the processing-gate counterexample. -/
def gateItem : UrlItem :=
  { id := "g1", url := "http://g", status := IndexingStatus.PENDING }

/-- Response entry matching gateItem. -/
def gateEntry : AnalysisEntry :=
  { url := "http://g", qualityLabel := UrlQuality.HIGH, qualityScore := 90,
    reasoning := "ok" }

/-- C9 counterexample: while the processing flag is true the batch Analyze
button is still enabled (it sets no disabled attribute), and the analyze
operation it invokes checks no flag and mutates item state, so a second
operation started during an in-flight one is neither rejected nor a no-op. -/
theorem batch_action_bypasses_processing_gate :
    batchActionDisabled true = false ∧
    runGeminiAnalysis [gateItem] (some ["g1"]) (Except.ok [gateEntry])
      ≠ [gateItem] := by
  exact ⟨rfl, by decide⟩

/-- C9 amended: only the two global action-bar buttons are disabled while
the processing flag is true; the batch action buttons never are. -/
theorem processing_gate_amended (items : List UrlItem)
    (serviceAccount : Option ServiceAccountKey) (isProcessing : Bool) :
    globalAnalyzeDisabled true items = true ∧
    globalSubmitDisabled true serviceAccount items = true ∧
    batchActionDisabled isProcessing = false := by
  refine ⟨?_, ?_, rfl⟩ <;> simp [globalAnalyzeDisabled, globalSubmitDisabled]

/-! ## Theorems about the submission orchestrator -/

lemma find?_map_id_preserving (l : List UrlItem) (g : UrlItem → UrlItem)
    (hid : ∀ a, (g a).id = a.id) (x : String) :
    (l.map g).find? (fun a => a.id = x) = (l.find? (fun a => a.id = x)).map g := by
  induction l with
  | nil => rfl
  | cons a t ih =>
    cases h : decide (a.id = x) with
    | true =>
      have hx : a.id = x := of_decide_eq_true h
      have hgx : (g a).id = x := by rw [hid a, hx]
      simp [List.find?_cons, hx, hgx]
    | false =>
      have hx : ¬ a.id = x := of_decide_eq_false h
      have hgx : ¬ (g a).id = x := by rw [hid a]; exact hx
      simp [List.find?_cons, hx, hgx, ih]

lemma statusOf_map_update (l : List UrlItem) (g : UrlItem → UrlItem)
    (hid : ∀ a, (g a).id = a.id) (x : String) :
    statusOf (l.map g) x = (l.find? (fun a => a.id = x)).map (fun a => (g a).status) := by
  unfold statusOf
  rw [find?_map_id_preserving l g hid x, Option.map_map]
  rfl

lemma statusOf_commitSubmission (s : List UrlItem) (itemId x : String) (ok : Bool) :
    statusOf (commitSubmission s itemId ok) x =
      if x = itemId
      then (statusOf s x).map
        (fun _ => if ok then IndexingStatus.SUCCESS else IndexingStatus.FAILED)
      else statusOf s x := by
  have hid : ∀ a : UrlItem,
      ((fun i => if i.id = itemId then
          { i with status := if ok then IndexingStatus.SUCCESS else IndexingStatus.FAILED,
                   analysis := if ok then i.analysis else some submitErrorNote }
        else i) a).id = a.id := by
    intro a
    by_cases h : a.id = itemId <;> simp [h]
  rw [show commitSubmission s itemId ok = s.map _ from rfl, statusOf_map_update s _ hid x]
  by_cases hx : x = itemId
  · rw [if_pos hx]
    unfold statusOf
    cases hfind : s.find? (fun a => a.id = x) with
    | none => simp
    | some a =>
      have ha : a.id = x := by simpa using List.find?_some hfind
      simp [ha, hx]
  · rw [if_neg hx]
    unfold statusOf
    cases hfind : s.find? (fun a => a.id = x) with
    | none => simp
    | some a =>
      have ha : a.id = x := by simpa using List.find?_some hfind
      simp [ha, hx]

lemma statusOf_markSubmitting (items : List UrlItem) (pids : List String) (x : String) :
    statusOf (markSubmitting items pids) x =
      if pids.contains x
      then (statusOf items x).map (fun _ => IndexingStatus.SUBMITTING)
      else statusOf items x := by
  have hid : ∀ a : UrlItem,
      ((fun i => if pids.contains i.id then
          { i with status := IndexingStatus.SUBMITTING } else i) a).id = a.id := by
    intro a
    by_cases h : a.id ∈ pids <;> simp [h]
  rw [show markSubmitting items pids = items.map _ from rfl, statusOf_map_update items _ hid x]
  by_cases hx : pids.contains x = true
  · rw [if_pos hx]
    have hx2 : x ∈ pids := List.elem_iff.mp hx
    unfold statusOf
    cases hfind : items.find? (fun a => a.id = x) with
    | none => simp
    | some a =>
      have ha : a.id = x := by simpa using List.find?_some hfind
      simp [ha, hx2]
  · rw [if_neg hx]
    have hx2 : ¬ x ∈ pids := fun hmem => hx (List.elem_iff.mpr hmem)
    unfold statusOf
    cases hfind : items.find? (fun a => a.id = x) with
    | none => simp
    | some a =>
      have ha : a.id = x := by simpa using List.find?_some hfind
      simp [ha, hx2]

lemma statusOf_isSome_of_mem (items : List UrlItem) (a : UrlItem) (ha : a ∈ items) :
    (statusOf items a.id).isSome := by
  unfold statusOf
  cases hfind : items.find? (fun x => x.id = a.id) with
  | some b => rfl
  | none =>
    exfalso
    have := List.find?_eq_none.mp hfind a ha
    simp at this

lemma submitStatesLoop_length (s tp : List UrlItem) (oks : Nat → Bool) (k : Nat) :
    (submitStatesLoop s tp oks k).length = tp.length := by
  induction tp generalizing s k with
  | nil => rfl
  | cons t rest ih => simp [submitStatesLoop, ih]

lemma submitStatesLoop_untouched (tp : List UrlItem) (oks : Nat → Bool) :
    ∀ (s : List UrlItem) (k : Nat) (x : String), (∀ a ∈ tp, a.id ≠ x) →
      ∀ j, j < tp.length →
        statusOf ((submitStatesLoop s tp oks k).getD j []) x = statusOf s x := by
  induction tp with
  | nil =>
    intro s k x _ j hj
    exact absurd hj (by simp)
  | cons t rest ih =>
    intro s k x hx j hj
    have htx : t.id ≠ x := hx t (List.mem_cons_self t rest)
    have hs1 : statusOf (commitSubmission s t.id (oks k)) x = statusOf s x := by
      rw [statusOf_commitSubmission, if_neg (fun he => htx he.symm)]
    cases j with
    | zero => exact hs1
    | succ j1 =>
      have hj1 : j1 < rest.length := by simpa using hj
      have hrec := ih (commitSubmission s t.id (oks k)) (k + 1) x
        (fun a hamem => hx a (List.mem_cons_of_mem t hamem)) j1 hj1
      exact hrec.trans hs1

lemma submitStatesLoop_status (tp : List UrlItem) (oks : Nat → Bool) :
    ∀ (s : List UrlItem) (k : Nat),
      (tp.map (fun i => i.id)).Nodup →
      (∀ (m : Nat) (hm : m < tp.length),
        statusOf s ((tp.get ⟨m, hm⟩).id) = some IndexingStatus.SUBMITTING) →
      ∀ (j m : Nat), j < tp.length → ∀ (hm : m < tp.length),
        statusOf ((submitStatesLoop s tp oks k).getD j []) ((tp.get ⟨m, hm⟩).id)
          = some (if m ≤ j then (if oks (k + m) then IndexingStatus.SUCCESS
                                 else IndexingStatus.FAILED)
                  else IndexingStatus.SUBMITTING) := by
  induction tp with
  | nil =>
    intro s k _ _ j m hj hm
    exact absurd hj (by simp)
  | cons t rest ih =>
    intro s k hnd hsub j m hj hm
    have hnd2 : (t.id :: rest.map (fun i => i.id)).Nodup := by simpa using hnd
    have hnd1 : (rest.map (fun i => i.id)).Nodup := (List.nodup_cons.mp hnd2).2
    have htid : ¬ t.id ∈ rest.map (fun i => i.id) := (List.nodup_cons.mp hnd2).1
    have h0 : statusOf s t.id = some IndexingStatus.SUBMITTING := by
      simpa using hsub 0 (Nat.succ_pos _)
    have hA : statusOf (commitSubmission s t.id (oks k)) t.id
        = some (if oks k then IndexingStatus.SUCCESS else IndexingStatus.FAILED) := by
      rw [statusOf_commitSubmission, if_pos rfl, h0]
      rfl
    have hB : ∀ (m1 : Nat) (hm1 : m1 < rest.length),
        statusOf (commitSubmission s t.id (oks k)) ((rest.get ⟨m1, hm1⟩).id)
          = some IndexingStatus.SUBMITTING := by
      intro m1 hm1
      have hne : (rest.get ⟨m1, hm1⟩).id ≠ t.id := by
        intro he
        exact htid (he ▸ List.mem_map_of_mem (fun i => i.id) (List.get_mem rest m1 hm1))
      rw [statusOf_commitSubmission, if_neg hne]
      simpa using hsub (m1 + 1) (Nat.succ_lt_succ hm1)
    cases j with
    | zero =>
      cases m with
      | zero => exact hA
      | succ m1 =>
        have hm1 : m1 < rest.length := by simpa using hm
        exact hB m1 hm1
    | succ j1 =>
      have hj1 : j1 < rest.length := by simpa using hj
      cases m with
      | zero =>
        have hunt := submitStatesLoop_untouched rest oks
          (commitSubmission s t.id (oks k)) (k + 1) t.id
          (fun a hamem he => htid (he ▸ List.mem_map_of_mem (fun i => i.id) hamem))
          j1 hj1
        exact hunt.trans hA
      | succ m1 =>
        have hm1 : m1 < rest.length := by simpa using hm
        have hv := ih (commitSubmission s t.id (oks k)) (k + 1) hnd1 hB j1 m1 hj1 hm1
        have harith : k + 1 + m1 = k + (m1 + 1) := by omega
        rw [harith] at hv
        simp only [Nat.add_le_add_iff_right]
        exact hv

/-- Sublist fact for the submission target resolution. -/
lemma submitTargets_sublist (items : List UrlItem) (targetIds : Option (List String)) :
    (submitTargets items targetIds).Sublist items := by
  cases targetIds <;> exact List.filter_sublist _

/-- Unfolding of submitToGoogle on the run path (credential present, target
set nonempty). -/
lemma submitToGoogle_run (items : List UrlItem) (key : ServiceAccountKey)
    (targetIds : Option (List String)) (oks : Nat → Bool)
    (hne : ¬ (submitTargets items targetIds).isEmpty = true) :
    submitToGoogle items (some key) targetIds oks =
      { error := none,
        states := markSubmitting items
            ((submitTargets items targetIds).map (fun i => i.id)) ::
          submitStatesLoop
            (markSubmitting items ((submitTargets items targetIds).map (fun i => i.id)))
            (submitTargets items targetIds) oks 0,
        calls := (submitTargets items targetIds).map (fun i => i.url),
        final := (markSubmitting items
            ((submitTargets items targetIds).map (fun i => i.id)) ::
          submitStatesLoop
            (markSubmitting items ((submitTargets items targetIds).map (fun i => i.id)))
            (submitTargets items targetIds) oks 0).getLast (List.cons_ne_nil _ _) } := by
  unfold submitToGoogle
  rw [if_neg hne]

/-- C1: with a credential configured and a nonempty target set, the
submission orchestrator first records the all-SUBMITTING snapshot and then
commits one item per step in target order: in the snapshot after step j+1,
every targeted item at position m ≤ j has its terminal status (SUCCESS or
FAILED per its own draw) while every targeted item at position m > j is
still SUBMITTING; the external calls are exactly the target urls in order. -/
theorem submit_sequential_commits (items : List UrlItem) (key : ServiceAccountKey)
    (targetIds : Option (List String)) (oks : Nat → Bool)
    (hnd : (items.map (fun i => i.id)).Nodup)
    (j m : Nat) (hj : j < (submitTargets items targetIds).length)
    (hm : m < (submitTargets items targetIds).length) :
    (submitToGoogle items (some key) targetIds oks).calls
        = (submitTargets items targetIds).map (fun i => i.url) ∧
    (submitToGoogle items (some key) targetIds oks).states.length
        = (submitTargets items targetIds).length + 1 ∧
    statusOf ((submitToGoogle items (some key) targetIds oks).states.getD (j + 1) [])
        (((submitTargets items targetIds).get ⟨m, hm⟩).id)
      = some (if m ≤ j then (if oks m then IndexingStatus.SUCCESS
                             else IndexingStatus.FAILED)
              else IndexingStatus.SUBMITTING) := by
  have hne : ¬ (submitTargets items targetIds).isEmpty = true := by
    intro habs
    rw [List.isEmpty_iff] at habs
    rw [habs] at hj
    exact absurd hj (by simp)
  have hndtp : ((submitTargets items targetIds).map (fun i => i.id)).Nodup :=
    ((submitTargets_sublist items targetIds).map (fun i => i.id)).nodup hnd
  have hsub : ∀ (m1 : Nat) (hm1 : m1 < (submitTargets items targetIds).length),
      statusOf (markSubmitting items
          ((submitTargets items targetIds).map (fun i => i.id)))
        (((submitTargets items targetIds).get ⟨m1, hm1⟩).id)
        = some IndexingStatus.SUBMITTING := by
    intro m1 hm1
    have hmem : (submitTargets items targetIds).get ⟨m1, hm1⟩ ∈
        submitTargets items targetIds := List.get_mem _ _ _
    have hmemItems : (submitTargets items targetIds).get ⟨m1, hm1⟩ ∈ items :=
      (submitTargets_sublist items targetIds).subset hmem
    have hcont : ((submitTargets items targetIds).map (fun i => i.id)).contains
        (((submitTargets items targetIds).get ⟨m1, hm1⟩).id) = true :=
      List.elem_iff.mpr (List.mem_map_of_mem (fun i => i.id) hmem)
    rw [statusOf_markSubmitting, if_pos hcont]
    have hsome := statusOf_isSome_of_mem items _ hmemItems
    cases hst : statusOf items (((submitTargets items targetIds).get ⟨m1, hm1⟩).id) with
    | none => rw [hst] at hsome; exact absurd hsome (by simp)
    | some st => rfl
  rw [submitToGoogle_run items key targetIds oks hne]
  refine ⟨rfl, ?_, ?_⟩
  · simp [submitStatesLoop_length]
  · show statusOf ((submitStatesLoop _ _ oks 0).getD j []) _ = _
    have := submitStatesLoop_status (submitTargets items targetIds) oks
      (markSubmitting items ((submitTargets items targetIds).map (fun i => i.id)))
      0 hndtp hsub j m hj hm
    simpa using this

/-- Concrete credential for the sequential-commit witness. -/
def demoKey : ServiceAccountKey :=
  ⟨"service_account", "p", "pk", "key", "e", "c", "a", "t", "u1", "u2"⟩

/-- Two READY items for the sequential-commit witness. -/
def demoItems : List UrlItem :=
  [{ id := "a", url := "http://a", status := IndexingStatus.READY },
   { id := "b", url := "http://b", status := IndexingStatus.READY }]

/-- Witness for submit_sequential_commits: with two READY items, after the
first external call resolves item a is SUCCESS while item b is still
SUBMITTING. -/
theorem submit_sequential_commits_witness :
    statusOf ((submitToGoogle demoItems (some demoKey) none
        (fun _ => true)).states.getD 1 []) "a" = some IndexingStatus.SUCCESS ∧
    statusOf ((submitToGoogle demoItems (some demoKey) none
        (fun _ => true)).states.getD 1 []) "b" = some IndexingStatus.SUBMITTING := by
  have h1 := submit_sequential_commits demoItems demoKey none (fun _ => true)
    (by decide) 0 0 (by decide) (by decide)
  have h2 := submit_sequential_commits demoItems demoKey none (fun _ => true)
    (by decide) 0 1 (by decide) (by decide)
  exact ⟨h1.2.2, h2.2.2⟩

/-- Default item used for positional lookups. -/
def defaultItem : UrlItem :=
  { id := "", url := "", status := IndexingStatus.PENDING }

/-- C10: two queued items sharing the same url, both targeted by one
successful analyze invocation whose response resolves that url, both become
READY and receive identical quality fields, all taken from the first
response entry with that url (List.find? returns the first match). -/
theorem duplicate_url_items_share_result (items : List UrlItem)
    (targetIds : Option (List String)) (entries : List AnalysisEntry)
    (k1 k2 : Nat) (h1 : k1 < items.length) (h2 : k2 < items.length)
    (hurl : (items.get ⟨k1, h1⟩).url = (items.get ⟨k2, h2⟩).url)
    (ht1 : ((analyzeTargets items targetIds).map (fun a => a.id)).contains
        ((items.get ⟨k1, h1⟩).id) = true)
    (ht2 : ((analyzeTargets items targetIds).map (fun a => a.id)).contains
        ((items.get ⟨k2, h2⟩).id) = true)
    (r : AnalysisEntry)
    (hr : entries.find? (fun e => e.url = (items.get ⟨k1, h1⟩).url) = some r) :
    (runGeminiAnalysis items targetIds (Except.ok entries)).length = items.length ∧
    ((runGeminiAnalysis items targetIds (Except.ok entries)).getD k1 defaultItem
      = { items.get ⟨k1, h1⟩ with
            status := IndexingStatus.READY,
            qualityLabel := some r.qualityLabel,
            qualityScore := some r.qualityScore,
            analysis := some r.reasoning }) ∧
    ((runGeminiAnalysis items targetIds (Except.ok entries)).getD k2 defaultItem
      = { items.get ⟨k2, h2⟩ with
            status := IndexingStatus.READY,
            qualityLabel := some r.qualityLabel,
            qualityScore := some r.qualityScore,
            analysis := some r.reasoning }) := by
  rw [runGeminiAnalysis_ok_eq]
  have hlen : (items.map (fun i =>
      if ((analyzeTargets items targetIds).map (fun a => a.id)).contains i.id then
        match entries.find? (fun r => r.url = i.url) with
        | some r =>
            { i with status := IndexingStatus.READY,
                     qualityLabel := some r.qualityLabel,
                     qualityScore := some r.qualityScore,
                     analysis := some r.reasoning }
        | none => { i with status := IndexingStatus.ANALYZING }
      else i)).length = items.length := List.length_map _ _
  refine ⟨hlen, ?_, ?_⟩
  · rw [List.getD_eq_get _ _ (by rw [hlen]; exact h1), List.get_map]
    rw [if_pos ht1, hr]
  · rw [List.getD_eq_get _ _ (by rw [hlen]; exact h2), List.get_map]
    have hr2 : entries.find? (fun e => e.url = (items.get ⟨k2, h2⟩).url) = some r := by
      rw [← hurl]
      exact hr
    rw [if_pos ht2, hr2]

/-- Two PENDING items with the same url and one matching response entry for
the duplicate-url witness. -/
def dupItems : List UrlItem :=
  [{ id := "a", url := "http://u", status := IndexingStatus.PENDING },
   { id := "b", url := "http://u", status := IndexingStatus.PENDING }]

/-- Response entry matching both dupItems. -/
def dupEntry : AnalysisEntry :=
  { url := "http://u", qualityLabel := UrlQuality.HIGH, qualityScore := 90,
    reasoning := "ok" }

/-- Witness for duplicate_url_items_share_result at two concrete PENDING
items sharing one url. -/
theorem duplicate_url_items_share_result_witness :
    (runGeminiAnalysis dupItems none (Except.ok [dupEntry])).getD 0 defaultItem
      = { id := "a", url := "http://u", status := IndexingStatus.READY,
          qualityScore := some 90, qualityLabel := some UrlQuality.HIGH,
          analysis := some "ok" } ∧
    (runGeminiAnalysis dupItems none (Except.ok [dupEntry])).getD 1 defaultItem
      = { id := "b", url := "http://u", status := IndexingStatus.READY,
          qualityScore := some 90, qualityLabel := some UrlQuality.HIGH,
          analysis := some "ok" } := by
  have h := duplicate_url_items_share_result dupItems none [dupEntry] 0 1
    (by decide) (by decide) rfl (by decide) (by decide) dupEntry (by decide)
  exact ⟨h.2.1, h.2.2⟩

end SmartIndexer
